import Mathlib

/-!
# Verification of the Repository/User Analytics Aggregation Engine

A shallow embedding of the core of the analytics engine:
`GitHubService` (bounded paginated fetcher and statistics aggregator),
`DateUtils` (time-filter window and date-range generation) and
`RedisCacheService` (read-through cache with in-process fallback),
together with proofs of the specified invariants.

Timestamps are modeled as epoch milliseconds (`Nat`); the JavaScript
`Date` arithmetic used by the source is plain millisecond arithmetic
under a UTC clock.
-/

set_option maxHeartbeats 1000000

/-- A GitHub user reference (`login` + `avatarUrl`) as carried on a PR. -/
structure PRUser where
  login : String
  avatarUrl : String
deriving DecidableEq

/-- `IPullRequest` from `core/entities`, as produced by
`GitHubService.mapPullRequest` / the `fetchUserStats` search mapping.
`state` is kept as a raw string because the source obtains it by an
unchecked cast (`pr.state as "open" | "closed"`). Timestamps are epoch
milliseconds. -/
structure IPullRequest where
  number : Nat
  title : String
  state : String
  merged : Bool
  createdAt : Nat
  mergedAt : Option Nat
  closedAt : Option Nat
  targetBranch : String
  repositoryName : String
  user : PRUser
  labels : List String
  additions : Nat
  deletions : Nat
  changedFiles : Nat
  reviewComments : Nat
deriving DecidableEq

/-- `IContributorStats` from `core/entities`. -/
structure IContributorStats where
  username : String
  avatarUrl : String
  totalPRs : Nat
  mergedPRs : Nat
  openPRs : Nat
  closedPRs : Nat
  isMaintainer : Bool
  totalAdditions : Nat
  totalDeletions : Nat
  avgReviewTime : Nat
  avgMergeTime : Nat
deriving DecidableEq

/-- The fresh all-zero stats record inserted by
`GitHubService.calculateContributorStats` when a username is first seen. -/
def freshStats (pr : IPullRequest) (maintainers : List String) : IContributorStats :=
  { username := pr.user.login
    avatarUrl := pr.user.avatarUrl
    totalPRs := 0
    mergedPRs := 0
    openPRs := 0
    closedPRs := 0
    isMaintainer := maintainers.contains pr.user.login
    totalAdditions := 0
    totalDeletions := 0
    avgReviewTime := 0
    avgMergeTime := 0 }

/-- The per-PR mutation of a contributor's stats record in
`calculateContributorStats`: bump `totalPRs`, accumulate
additions/deletions, and bump exactly one of merged/open/closed with
the precedence `merged > open > closed`. -/
def bumpStats (s : IContributorStats) (pr : IPullRequest) : IContributorStats :=
  let s' := { s with totalPRs := s.totalPRs + 1
                     totalAdditions := s.totalAdditions + pr.additions
                     totalDeletions := s.totalDeletions + pr.deletions }
  if pr.merged then { s' with mergedPRs := s'.mergedPRs + 1 }
  else if pr.state = "open" then { s' with openPRs := s'.openPRs + 1 }
  else { s' with closedPRs := s'.closedPRs + 1 }

/-- In-place update of the (unique) entry keyed by `pr.user.login`;
models the JS `Map` value mutation `statsMap.get(username)!` followed by
the increments, which keeps the entry at its original position. -/
def statsUpdate (pr : IPullRequest) : List (String × IContributorStats) → List (String × IContributorStats)
  | [] => []
  | e :: rest =>
      if e.1 = pr.user.login then (e.1, bumpStats e.2 pr) :: rest
      else e :: statsUpdate pr rest

/-- One iteration of the `for (const pr of prs)` loop of
`calculateContributorStats`: insert a fresh record if the username is
absent (JS `Map.set` appends in insertion order), then bump it. -/
def statsStep (maintainers : List String) (m : List (String × IContributorStats))
    (pr : IPullRequest) : List (String × IContributorStats) :=
  let m' := if m.any (fun e => e.1 = pr.user.login) then m
            else m ++ [(pr.user.login, freshStats pr maintainers)]
  statsUpdate pr m'

/-- `GitHubService.calculateContributorStats`: reduce a PR list into
per-contributor rollups, in first-seen order (`Array.from(statsMap.values())`). -/
def calculateContributorStats (prs : List IPullRequest) (maintainers : List String) :
    List IContributorStats :=
  (prs.foldl (statsStep maintainers) []).map Prod.snd

/-- The `totalStats` rollup computed inline by `GitHubService.fetchUserStats`:
four independent filters over the matched PR list. -/
structure TotalStats where
  totalPRs : Nat
  mergedPRs : Nat
  openPRs : Nat
  closedPRs : Nat
deriving DecidableEq

/-- `fetchUserStats`'s `totalStats` object: `totalPRs = prs.length`,
`mergedPRs` counts `pr.merged`, `openPRs` counts `state === "open"`,
`closedPRs` counts `state === "closed" && !pr.merged`. -/
def totalStats (prs : List IPullRequest) : TotalStats :=
  { totalPRs := prs.length
    mergedPRs := (prs.filter (fun pr => pr.merged)).length
    openPRs := (prs.filter (fun pr => pr.state == "open")).length
    closedPRs := (prs.filter (fun pr => pr.state == "closed" && !pr.merged)).length }

/-! ## Contributor-rollup lemmas -/

/-- `bumpStats` adds one to `totalPRs` and one to exactly one of the
three buckets, so it preserves the partition identity. -/
theorem bumpStats_partition (s : IContributorStats) (pr : IPullRequest)
    (h : s.totalPRs = s.mergedPRs + s.openPRs + s.closedPRs) :
    (bumpStats s pr).totalPRs =
      (bumpStats s pr).mergedPRs + (bumpStats s pr).openPRs + (bumpStats s pr).closedPRs := by
  unfold bumpStats
  by_cases hm : pr.merged <;> by_cases ho : pr.state = "open" <;>
    simp [hm, ho] <;> omega

theorem statsUpdate_mem (pr : IPullRequest) :
    ∀ (m : List (String × IContributorStats)) (e : String × IContributorStats),
      e ∈ statsUpdate pr m → e ∈ m ∨ ∃ e' ∈ m, e = (e'.1, bumpStats e'.2 pr) := by
  intro m
  induction m with
  | nil => intro e h; simp [statsUpdate] at h
  | cons hd tl ih =>
      intro e h
      unfold statsUpdate at h
      by_cases hk : hd.1 = pr.user.login
      · simp only [hk, if_pos rfl] at h
        rcases List.mem_cons.mp h with h1 | h1
        · right; exact ⟨hd, List.mem_cons_self .., by simpa [hk] using h1⟩
        · left; exact List.mem_cons_of_mem _ h1
      · rw [if_neg hk] at h
        rcases List.mem_cons.mp h with h1 | h1
        · left; exact h1 ▸ List.mem_cons_self ..
        · rcases ih e h1 with h2 | ⟨e', he', he⟩
          · left; exact List.mem_cons_of_mem _ h2
          · right; exact ⟨e', List.mem_cons_of_mem _ he', he⟩

/-- Sum of `totalPRs` over an association-list accumulator. -/
def sumTotal (m : List (String × IContributorStats)) : Nat :=
  (m.map (fun e => e.2.totalPRs)).sum

theorem sumTotal_statsUpdate (pr : IPullRequest) :
    ∀ m : List (String × IContributorStats),
      m.any (fun e => e.1 = pr.user.login) = true →
      sumTotal (statsUpdate pr m) = sumTotal m + 1 := by
  intro m
  induction m with
  | nil => intro h; simp at h
  | cons hd tl ih =>
      intro h
      unfold statsUpdate
      by_cases hk : hd.1 = pr.user.login
      · simp only [hk, if_pos rfl]
        have : (bumpStats hd.2 pr).totalPRs = hd.2.totalPRs + 1 := by
          unfold bumpStats
          by_cases hm : pr.merged <;> by_cases ho : pr.state = "open" <;> simp [hm, ho]
        simp [sumTotal, this]; omega
      · rw [if_neg hk]
        have htl : tl.any (fun e => e.1 = pr.user.login) = true := by
          simp only [List.any_cons] at h
          rcases Bool.or_eq_true_iff.mp h with h1 | h1
          · exact absurd (by simpa using h1) hk
          · exact h1
        simp only [sumTotal, List.map_cons, List.sum_cons]
        have := ih htl
        simp only [sumTotal] at this
        omega

theorem sumTotal_statsStep (maintainers : List String)
    (m : List (String × IContributorStats)) (pr : IPullRequest) :
    sumTotal (statsStep maintainers m pr) = sumTotal m + 1 := by
  unfold statsStep
  by_cases hmem : m.any (fun e => e.1 = pr.user.login) = true
  · rw [if_pos hmem]; exact sumTotal_statsUpdate pr m hmem
  · rw [if_neg hmem]
    have hmem' : (m ++ [(pr.user.login, freshStats pr maintainers)]).any
        (fun e => e.1 = pr.user.login) = true := by
      simp
    rw [sumTotal_statsUpdate pr _ hmem']
    simp [sumTotal, freshStats]

theorem sumTotal_foldl (maintainers : List String) :
    ∀ (prs : List IPullRequest) (m : List (String × IContributorStats)),
      sumTotal (prs.foldl (statsStep maintainers) m) = sumTotal m + prs.length := by
  intro prs
  induction prs with
  | nil => intro m; simp
  | cons hd tl ih =>
      intro m
      simp only [List.foldl_cons, List.length_cons]
      rw [ih, sumTotal_statsStep]
      omega

/-- Partition invariant for every entry of the accumulator. -/
def entriesPartition (m : List (String × IContributorStats)) : Prop :=
  ∀ e ∈ m, e.2.totalPRs = e.2.mergedPRs + e.2.openPRs + e.2.closedPRs

theorem entriesPartition_statsStep (maintainers : List String)
    (m : List (String × IContributorStats)) (pr : IPullRequest)
    (h : entriesPartition m) : entriesPartition (statsStep maintainers m pr) := by
  intro e he
  unfold statsStep at he
  by_cases hmem : m.any (fun e => e.1 = pr.user.login) = true
  · rw [if_pos hmem] at he
    rcases statsUpdate_mem pr m e he with h1 | ⟨e', he', heq⟩
    · exact h e h1
    · rw [heq]; exact bumpStats_partition e'.2 pr (h e' he')
  · rw [if_neg hmem] at he
    rcases statsUpdate_mem pr _ e he with h1 | ⟨e', he', heq⟩
    · rcases List.mem_append.mp h1 with h2 | h2
      · exact h e h2
      · simp only [List.mem_singleton] at h2
        rw [h2]; simp [freshStats]
    · rw [heq]
      apply bumpStats_partition
      rcases List.mem_append.mp he' with h2 | h2
      · exact h e' h2
      · simp only [List.mem_singleton] at h2
        rw [h2]; simp [freshStats]

theorem entriesPartition_foldl (maintainers : List String) :
    ∀ (prs : List IPullRequest) (m : List (String × IContributorStats)),
      entriesPartition m → entriesPartition (prs.foldl (statsStep maintainers) m) := by
  intro prs
  induction prs with
  | nil => intro m h; simpa using h
  | cons hd tl ih =>
      intro m h
      simp only [List.foldl_cons]
      exact ih _ (entriesPartition_statsStep maintainers m hd h)

/-- User-path partition identity under the stated side conditions. -/
theorem totalStats_partition :
    ∀ prs : List IPullRequest,
      (∀ pr ∈ prs, (pr.state = "open" ∨ pr.state = "closed") ∧
        ¬(pr.merged = true ∧ pr.state = "open")) →
      (totalStats prs).totalPRs =
        (totalStats prs).mergedPRs + (totalStats prs).openPRs + (totalStats prs).closedPRs := by
  intro prs
  induction prs with
  | nil => intro _; simp [totalStats]
  | cons hd tl ih =>
      intro h
      have hhd := h hd (List.mem_cons_self ..)
      have htl := ih (fun pr hpr => h pr (List.mem_cons_of_mem _ hpr))
      simp only [totalStats] at htl ⊢
      by_cases hm : hd.merged <;> rcases hhd.1 with ho | hc
      · exact absurd ⟨hm, ho⟩ hhd.2
      · simp [List.filter_cons, hm, hc]; omega
      · simp [List.filter_cons, hm, ho]; omega
      · simp [List.filter_cons, hm, hc]; omega

/-! ## Sample pull requests used as concrete witnesses -/

/-- A plain open, unmerged PR. -/
def samplePROpen : IPullRequest :=
  { number := 1, title := "feat", state := "open", merged := false, createdAt := 17280000000000
    mergedAt := none, closedAt := none, targetBranch := "main", repositoryName := "o/r"
    user := ⟨"alice", ""⟩, labels := ["bug"], additions := 3, deletions := 1
    changedFiles := 1, reviewComments := 0 }

/-- A merged (hence closed) PR. -/
def samplePRMerged : IPullRequest :=
  { number := 2, title := "fix", state := "closed", merged := true, createdAt := 17280000000000
    mergedAt := some 17280086400000, closedAt := some 17280086400000, targetBranch := "main"
    repositoryName := "o/r", user := ⟨"alice", ""⟩, labels := [], additions := 5, deletions := 2
    changedFiles := 2, reviewComments := 1 }

/-- A PR record with `merged = true` while `state = "open"`, as the search
mapping in `fetchUserStats` can produce (`item.pull_request?.merged_at !== null`
is `true` when `pull_request` is absent, whatever `state` says). -/
def samplePRMergedOpen : IPullRequest :=
  { number := 3, title := "odd", state := "open", merged := true, createdAt := 17280000000000
    mergedAt := none, closedAt := none, targetBranch := "", repositoryName := "o/r"
    user := ⟨"bob", ""⟩, labels := [], additions := 0, deletions := 0
    changedFiles := 0, reviewComments := 0 }

/-! ## Claim C1 -/

/-- C1 (counterexample): the claim asserts the partition identity
`totalPRs = mergedPRs + openPRs + closedPRs` for the user-path
`totalStats` rollup of `fetchUserStats` "for arbitrary PR records
including ones where merged is true while state is open". On the
single-record list `[samplePRMergedOpen]` the rollup yields
`totalPRs = 1` but `mergedPRs + openPRs + closedPRs = 2`: the record is
counted both as merged and as open. -/
theorem c1_totalStats_counterexample :
    ¬ ((totalStats [samplePRMergedOpen]).totalPRs =
        (totalStats [samplePRMergedOpen]).mergedPRs +
        (totalStats [samplePRMergedOpen]).openPRs +
        (totalStats [samplePRMergedOpen]).closedPRs) := by
  decide

/-- C1 (amended): for every PR list reduced by the engine,
(a) the repository-path reducer `calculateContributorStats` satisfies,
for arbitrary PR records, that the sum of `totalPRs` over all
contributors equals the length of the PR list and that each
contributor's `totalPRs` equals `mergedPRs + openPRs + closedPRs`;
(b) the user-path `totalStats` rollup of `fetchUserStats` satisfies
`totalPRs = mergedPRs + openPRs + closedPRs` provided every record's
state is `"open"` or `"closed"` and no record is simultaneously merged
and open (a merged-while-open record is double-counted there). -/
theorem c1_stats_invariants :
    (∀ (prs : List IPullRequest) (maintainers : List String),
      ((calculateContributorStats prs maintainers).map (fun s => s.totalPRs)).sum = prs.length
      ∧ ∀ s ∈ calculateContributorStats prs maintainers,
          s.totalPRs = s.mergedPRs + s.openPRs + s.closedPRs)
    ∧ (∀ prs : List IPullRequest,
        (∀ pr ∈ prs, (pr.state = "open" ∨ pr.state = "closed") ∧
          ¬(pr.merged = true ∧ pr.state = "open")) →
        (totalStats prs).totalPRs =
          (totalStats prs).mergedPRs + (totalStats prs).openPRs + (totalStats prs).closedPRs) := by
  refine ⟨fun prs maintainers => ⟨?_, ?_⟩, totalStats_partition⟩
  · have := sumTotal_foldl maintainers prs []
    simp only [sumTotal] at this
    simpa [calculateContributorStats, List.map_map, Function.comp] using this
  · intro s hs
    rcases List.mem_map.mp hs with ⟨e, he, rfl⟩
    exact entriesPartition_foldl maintainers prs [] (by intro e h; simp at h) e he

/-- C1 (witness): the amended theorem applied to the concrete two-PR
list `[samplePROpen, samplePRMerged]` (one open, one merged PR by the
same author), whose side conditions hold by evaluation. -/
theorem c1_stats_invariants_witness :
    ((calculateContributorStats [samplePROpen, samplePRMerged] ["alice"]).map
        (fun s => s.totalPRs)).sum = 2
    ∧ (totalStats [samplePROpen, samplePRMerged]).totalPRs =
        (totalStats [samplePROpen, samplePRMerged]).mergedPRs +
        (totalStats [samplePROpen, samplePRMerged]).openPRs +
        (totalStats [samplePROpen, samplePRMerged]).closedPRs := by
  constructor
  · exact ((c1_stats_invariants.1 [samplePROpen, samplePRMerged] ["alice"]).1).trans (by decide)
  · exact c1_stats_invariants.2 [samplePROpen, samplePRMerged] (by decide)

/-! ## DateUtils: time-filter windows and date ranges -/

/-- `TimeFilter` union type `"2w" | "1m" | "3m" | "6m" | "all"`. -/
inductive TimeFilter
  | tw
  | om
  | tm
  | sm
  | all
deriving DecidableEq

namespace DateUtils

/-- Milliseconds per calendar day (the source writes `24 * 60 * 60 * 1000`). -/
def msPerDay : Nat := 24 * 60 * 60 * 1000

/-- `DateUtils.getStartDate`: fixed millisecond offsets from `now`
(14/30/90/180 days), or the Unix epoch for `"all"`. -/
def getStartDate (filter : TimeFilter) (now : Nat) : Nat :=
  match filter with
  | .tw => now - 14 * msPerDay
  | .om => now - 30 * msPerDay
  | .tm => now - 90 * msPerDay
  | .sm => now - 180 * msPerDay
  | .all => 0

/-- `DateUtils.toDateString`: `date.toISOString().split("T")[0]`, i.e. the
UTC calendar day of the instant. The `YYYY-MM-DD` rendering of a day
index is injective, so the string is modeled by the day index itself. -/
def toDateString (d : Nat) : Nat :=
  d / msPerDay

/-- Whole days between two instants, `a ≤ b` (the spec's `daysBetween`). -/
def daysBetween (a b : Nat) : Nat :=
  (b - a) / msPerDay

/-- The `while (currentDate <= endDate)` loop of
`DateUtils.generateDateRange`: push the day string and advance by one
day (`setDate(getDate() + 1)` under a UTC clock adds `msPerDay`). -/
def dateRangeLoop (endDate : Nat) (currentDate : Nat) : List Nat :=
  if _h : currentDate ≤ endDate then
    toDateString currentDate :: dateRangeLoop endDate (currentDate + msPerDay)
  else []
termination_by endDate + 1 - currentDate
decreasing_by
  simp only [msPerDay] at *
  omega

/-- `DateUtils.generateDateRange`: every day string from
`getStartDate(filter)` up to today (`new Date()` = `now`) inclusive. -/
def generateDateRange (filter : TimeFilter) (now : Nat) : List Nat :=
  dateRangeLoop now (getStartDate filter now)

theorem dateRangeLoop_eq_aux (e : Nat) :
    ∀ (n c : Nat), e + 1 - c ≤ n → c ≤ e →
      dateRangeLoop e c =
        (List.range ((e - c) / msPerDay + 1)).map (fun i => c / msPerDay + i) := by
  intro n
  induction n with
  | zero => intro c h hc; omega
  | succ n ih =>
      intro c h hc
      rw [dateRangeLoop]
      rw [dif_pos hc]
      by_cases hstep : c + msPerDay ≤ e
      · have hrec := ih (c + msPerDay) (by simp only [msPerDay] at *; omega) hstep
        rw [hrec]
        have hdiv : (e - c) / msPerDay = (e - (c + msPerDay)) / msPerDay + 1 := by
          have hD : 0 < msPerDay := by simp [msPerDay]
          have : e - c = (e - (c + msPerDay)) + msPerDay := by omega
          rw [this, Nat.add_div_right _ hD]
        have hc' : (c + msPerDay) / msPerDay = c / msPerDay + 1 :=
          Nat.add_div_right c (by simp [msPerDay])
        rw [hdiv]
        conv_rhs => rw [List.range_succ_eq_map]
        rw [List.map_cons, List.map_map]
        refine congrArg₂ List.cons ?_ ?_
        · simp [toDateString]
        · apply List.map_congr_left
          intro i _
          simp only [Function.comp_apply, hc']
          omega
      · have hloop : dateRangeLoop e (c + msPerDay) = [] := by
          rw [dateRangeLoop, dif_neg hstep]
        have hdiv : (e - c) / msPerDay = 0 :=
          Nat.div_eq_of_lt (by omega)
        rw [hloop, hdiv]
        simp [toDateString, List.range_succ]

/-- Closed form of the range loop: consecutive day indices starting at
the start day. -/
theorem dateRangeLoop_eq (e c : Nat) (hc : c ≤ e) :
    dateRangeLoop e c =
      (List.range ((e - c) / msPerDay + 1)).map (fun i => c / msPerDay + i) :=
  dateRangeLoop_eq_aux e (e + 1 - c) c (Nat.le_refl _) hc

end DateUtils

/-! ## Bounded paginated fetcher (`GitHubService.fetchPullRequests`) -/

namespace GITHUB_API

/-- Default items per page. -/
def PER_PAGE : Nat := 100

/-- Maximum pages to fetch for PRs. -/
def MAX_PAGES : Nat := 5

/-- Maximum PRs to analyze. -/
def MAX_PRS : Nat := 500

end GITHUB_API

/-- A raw pull-request object as returned by the list-pulls endpoint;
only the fields read by `mapPullRequest` and the pagination loop.
Optional fields model the `?.`/`||` accesses of the source. -/
structure RawPR where
  number : Nat
  title : String
  state : String
  merged_at : Option Nat
  created_at : Nat
  closed_at : Option Nat
  base_ref : Option String
  user : Option PRUser
  labels : List String
  additions : Option Nat
  deletions : Option Nat
  changed_files : Option Nat
  review_comments : Option Nat
deriving DecidableEq, Inhabited

/-- `GitHubService.mapPullRequest`: map a raw API object to
`IPullRequest`; `merged := pr.merged_at !== null`. -/
def mapPullRequest (pr : RawPR) (owner repo : String) : IPullRequest :=
  { number := pr.number
    title := pr.title
    state := pr.state
    merged := pr.merged_at ≠ none
    createdAt := pr.created_at
    mergedAt := pr.merged_at
    closedAt := pr.closed_at
    targetBranch := pr.base_ref.getD ""
    repositoryName := owner ++ "/" ++ repo
    user := { login := (pr.user.map PRUser.login).getD "unknown"
              avatarUrl := (pr.user.map PRUser.avatarUrl).getD "" }
    labels := pr.labels
    additions := pr.additions.getD 0
    deletions := pr.deletions.getD 0
    changedFiles := pr.changed_files.getD 0
    reviewComments := pr.review_comments.getD 0 }

/-- Result of a fetch: the accumulated PR list plus the number of page
requests issued (a ghost observable instrumenting the API-call count). -/
structure FetchResult where
  prs : List IPullRequest
  requests : Nat
deriving DecidableEq

/-- The `while` loop of `GitHubService.fetchPullRequests`. `api p` is
the upstream response for page `p` (the `octokit.rest.pulls.list` call);
each loop iteration issues exactly one request. Termination checks, in
source order: zero-item page; fewer than `PER_PAGE` items; oldest item
on the page (`data[data.length - 1]`) created before `startDate`; plus
the loop condition `currentPage <= MAX_PAGES && allPRs.length < MAX_PRS`. -/
def fetchLoop (api : Nat → List RawPR) (owner repo : String) (startDate : Nat)
    (currentPage : Nat) (acc : List IPullRequest) : FetchResult :=
  if h : currentPage ≤ GITHUB_API.MAX_PAGES ∧ acc.length < GITHUB_API.MAX_PRS then
    let data := api currentPage
    if data.length = 0 then ⟨acc, 1⟩
    else
      let filteredPRs := data.filter (fun pr => decide (startDate ≤ pr.created_at))
      let mappedPRs := filteredPRs.map (fun pr => mapPullRequest pr owner repo)
      let acc' := acc ++ mappedPRs
      if data.length < GITHUB_API.PER_PAGE then ⟨acc', 1⟩
      else if (data.getLastD default).created_at < startDate then ⟨acc', 1⟩
      else
        let r := fetchLoop api owner repo startDate (currentPage + 1) acc'
        ⟨r.prs, r.requests + 1⟩
  else ⟨acc, 0⟩
termination_by GITHUB_API.MAX_PAGES + 1 - currentPage
decreasing_by
  simp only [GITHUB_API.MAX_PAGES] at *
  omega

/-- `GitHubService.fetchPullRequests` with its default `page = 1` and an
empty accumulator; `startDate = DateUtils.getStartDate(timeFilter)`. -/
def fetchPullRequests (api : Nat → List RawPR) (owner repo : String)
    (timeFilter : TimeFilter) (now : Nat) : FetchResult :=
  fetchLoop api owner repo (DateUtils.getStartDate timeFilter now) 1 []

theorem fetchLoop_bounds (api : Nat → List RawPR) (o r : String) (s : Nat) :
    ∀ (n p : Nat) (acc : List IPullRequest),
      GITHUB_API.MAX_PAGES + 1 - p ≤ n →
      (fetchLoop api o r s p acc).requests ≤ GITHUB_API.MAX_PAGES + 1 - p ∧
      ((∀ q, (api q).length ≤ GITHUB_API.PER_PAGE) →
        (fetchLoop api o r s p acc).prs.length ≤
          acc.length + (GITHUB_API.MAX_PAGES + 1 - p) * GITHUB_API.PER_PAGE) := by
  intro n
  induction n with
  | zero =>
      intro p acc h
      have hc : ¬ (p ≤ GITHUB_API.MAX_PAGES ∧ acc.length < GITHUB_API.MAX_PRS) := by
        simp only [GITHUB_API.MAX_PAGES] at *
        omega
      rw [fetchLoop, dif_neg hc]
      exact ⟨Nat.zero_le _, fun _ => Nat.le_add_right _ _⟩
  | succ n ih =>
      intro p acc h
      by_cases hc : p ≤ GITHUB_API.MAX_PAGES ∧ acc.length < GITHUB_API.MAX_PRS
      · rw [fetchLoop, dif_pos hc]
        dsimp only
        by_cases h0 : (api p).length = 0
        · rw [if_pos h0]
          refine ⟨?_, fun _ => ?_⟩ <;> simp only [GITHUB_API.MAX_PAGES] at * <;> omega
        · rw [if_neg h0]
          have hmap : ∀ hap : (∀ q, (api q).length ≤ GITHUB_API.PER_PAGE),
              (((api p).filter (fun pr => decide (s ≤ pr.created_at))).map
                (fun pr => mapPullRequest pr o r)).length ≤ GITHUB_API.PER_PAGE := by
            intro hap
            calc (((api p).filter (fun pr => decide (s ≤ pr.created_at))).map
                    (fun pr => mapPullRequest pr o r)).length
                = ((api p).filter (fun pr => decide (s ≤ pr.created_at))).length :=
                  List.length_map ..
              _ ≤ (api p).length := List.length_filter_le ..
              _ ≤ GITHUB_API.PER_PAGE := hap p
          by_cases h1 : (api p).length < GITHUB_API.PER_PAGE
          · rw [if_pos h1]
            refine ⟨?_, fun hap => ?_⟩
            · simp only [GITHUB_API.MAX_PAGES] at *; omega
            · have := hmap hap
              simp only [List.length_append, GITHUB_API.MAX_PAGES, GITHUB_API.PER_PAGE] at *
              omega
          · rw [if_neg h1]
            by_cases h2 : ((api p).getLastD default).created_at < s
            · rw [if_pos h2]
              refine ⟨?_, fun hap => ?_⟩
              · simp only [GITHUB_API.MAX_PAGES] at *; omega
              · have := hmap hap
                simp only [List.length_append, GITHUB_API.MAX_PAGES, GITHUB_API.PER_PAGE] at *
                omega
            · rw [if_neg h2]
              dsimp only
              have hrec := ih (p + 1)
                (acc ++ ((api p).filter (fun pr => decide (s ≤ pr.created_at))).map
                  (fun pr => mapPullRequest pr o r))
                (by simp only [GITHUB_API.MAX_PAGES] at *; omega)
              refine ⟨?_, fun hap => ?_⟩
              · have := hrec.1
                simp only [GITHUB_API.MAX_PAGES] at *
                omega
              · have := hrec.2 hap
                have hm := hmap hap
                simp only [List.length_append, GITHUB_API.MAX_PAGES, GITHUB_API.PER_PAGE] at *
                omega
      · rw [fetchLoop, dif_neg hc]
        exact ⟨Nat.zero_le _, fun _ => Nat.le_add_right _ _⟩

/-! ## Claims C2 and C8 -/

/-- C2: for every owner, repo, branch and time filter, and any upstream
behaviour honouring the requested page size (every page response holds
at most `PER_PAGE = 100` items, even if full pages keep coming forever),
`fetchPullRequests` issues at most `MAX_PAGES = 5` page requests and
returns at most `MAX_PRS = 500` pull requests: worst-case cost is
bounded by pageCap × pageSize. -/
theorem c2_pagination_bounds (api : Nat → List RawPR) (owner repo : String)
    (timeFilter : TimeFilter) (now : Nat)
    (hap : ∀ q, (api q).length ≤ GITHUB_API.PER_PAGE) :
    (fetchPullRequests api owner repo timeFilter now).requests ≤ GITHUB_API.MAX_PAGES ∧
    (fetchPullRequests api owner repo timeFilter now).prs.length ≤ GITHUB_API.MAX_PRS := by
  have h := fetchLoop_bounds api owner repo (DateUtils.getStartDate timeFilter now)
    (GITHUB_API.MAX_PAGES + 1 - 1) 1 [] (Nat.le_refl _)
  simp only [fetchPullRequests]
  constructor
  · have := h.1
    simp only [GITHUB_API.MAX_PAGES] at *
    omega
  · have := h.2 hap
    simp only [List.length_nil, GITHUB_API.MAX_PAGES, GITHUB_API.PER_PAGE,
      GITHUB_API.MAX_PRS] at *
    omega

/-- C2 (witness): the bounds evaluated against an upstream that returns
no items at all. -/
theorem c2_pagination_bounds_witness :
    (fetchPullRequests (fun _ => []) "octocat" "hello" TimeFilter.tw
        (200 * DateUtils.msPerDay)).requests ≤ GITHUB_API.MAX_PAGES ∧
    (fetchPullRequests (fun _ => []) "octocat" "hello" TimeFilter.tw
        (200 * DateUtils.msPerDay)).prs.length ≤ GITHUB_API.MAX_PRS :=
  c2_pagination_bounds (fun _ => []) "octocat" "hello" TimeFilter.tw
    (200 * DateUtils.msPerDay) (fun q => by simp [GITHUB_API.PER_PAGE])

/-- C8: if a page request returns exactly `PER_PAGE = 100` items and the
oldest (last) item on that page was created strictly before `startDate`,
the pagination loop issues no further page requests after that page:
exactly one request is made from that point, even though the page was
full. Stated for any reachable loop state (page index within the page
cap, accumulator below the item cap). -/
theorem c8_full_page_old_oldest_stops (api : Nat → List RawPR) (owner repo : String)
    (startDate p : Nat) (acc : List IPullRequest)
    (hp : p ≤ GITHUB_API.MAX_PAGES) (hacc : acc.length < GITHUB_API.MAX_PRS)
    (hfull : (api p).length = GITHUB_API.PER_PAGE)
    (hold : ((api p).getLastD default).created_at < startDate) :
    (fetchLoop api owner repo startDate p acc).requests = 1 := by
  rw [fetchLoop, dif_pos ⟨hp, hacc⟩]
  dsimp only
  rw [if_neg (by simp [hfull, GITHUB_API.PER_PAGE]),
    if_neg (by simp [hfull]),
    if_pos hold]

/-- A raw PR created at the epoch, older than any positive start date. -/
def sampleOldRaw : RawPR :=
  { number := 0, title := "", state := "closed", merged_at := none, created_at := 0
    closed_at := none, base_ref := none, user := none, labels := []
    additions := none, deletions := none, changed_files := none, review_comments := none }

/-- C8 (witness): a simulated upstream returning a full page of 100
epoch-old items stops after one request when `startDate = 1`. -/
theorem c8_full_page_old_oldest_stops_witness :
    (fetchLoop (fun _ => List.replicate 100 sampleOldRaw) "o" "r" 1 1 []).requests = 1 :=
  c8_full_page_old_oldest_stops (fun _ => List.replicate 100 sampleOldRaw) "o" "r" 1 1 []
    (by decide) (by decide) (by decide) (by decide)

/-! ## Cache keys (`CACHE_KEYS`) -/

namespace CACHE_KEYS

/-- `CACHE_KEYS.repoStats`: the template literal
`repo:${owner}:${repo}:${branch || "all"}:${filter}`; the only falsy
string is `""`, so `branch || "all"` replaces exactly the empty branch. -/
def repoStats (owner repo branch filter : String) : String :=
  "repo:" ++ owner ++ ":" ++ repo ++ ":" ++ (if branch = "" then "all" else branch)
    ++ ":" ++ filter

/-- `CACHE_KEYS.userStats`: `user:${username}:${filter}`. -/
def userStats (username filter : String) : String :=
  "user:" ++ username ++ ":" ++ filter

/-- `CACHE_KEYS.maintainers`: `maintainers:${owner}:${repo}`. -/
def maintainers (owner repo : String) : String :=
  "maintainers:" ++ owner ++ ":" ++ repo

/-- `CACHE_KEYS.branches`: `branches:${owner}:${repo}`. -/
def branches (owner repo : String) : String :=
  "branches:" ++ owner ++ ":" ++ repo

end CACHE_KEYS

/-- Joining two colon-free segments with `':'` is cancellative: the
first colon unambiguously delimits the first segment. -/
theorem colonfree_append_cancel :
    ∀ (a b x y : List Char), ':' ∉ a → ':' ∉ b →
      a ++ ':' :: x = b ++ ':' :: y → a = b ∧ x = y := by
  intro a
  induction a with
  | nil =>
      intro b x y _ hb h
      cases b with
      | nil => simpa using h
      | cons c cs =>
          simp only [List.nil_append, List.cons_append, List.cons.injEq] at h
          exact absurd (h.1 ▸ List.mem_cons_self ..) hb
  | cons c cs ih =>
      intro b x y ha hb h
      cases b with
      | nil =>
          simp only [List.cons_append, List.nil_append, List.cons.injEq] at h
          exact absurd (h.1.symm ▸ List.mem_cons_self ..) ha
      | cons c' cs' =>
          simp only [List.cons_append, List.cons.injEq] at h
          have hcs : ':' ∉ cs := fun hm => ha (List.mem_cons_of_mem _ hm)
          have hcs' : ':' ∉ cs' := fun hm => hb (List.mem_cons_of_mem _ hm)
          obtain ⟨heq, hx⟩ := ih cs' x y hcs hcs' h.2
          exact ⟨by rw [h.1, heq], hx⟩

/-- The repo-stats key decomposed as colon-joined segments. -/
theorem repoStats_data (owner repo branch filter : String) :
    (CACHE_KEYS.repoStats owner repo branch filter).data =
      ("repo" : String).data ++ ':' ::
        (owner.data ++ ':' ::
          (repo.data ++ ':' ::
            ((if branch = "" then "all" else branch).data ++ ':' :: filter.data))) := by
  simp only [CACHE_KEYS.repoStats]
  by_cases hb : branch = "" <;>
    simp [hb, String.data_append, List.append_assoc]

/-! ## Claim C3 -/

/-- C3 (counterexample): the claim requires that a query with an empty
branch filter and a query with branch literally `"all"` map to different
keys; `branch || "all"` sends both to the same key
`repo:o:r:all:2w`, so the key builder is not injective. -/
theorem c3_cache_key_counterexample :
    CACHE_KEYS.repoStats "o" "r" "" "2w" = CACHE_KEYS.repoStats "o" "r" "all" "2w"
    ∧ ("" : String) ≠ "all" := by
  constructor
  · rfl
  · decide

/-- C3 (amended): the key builder is deterministic, and it is injective
only on restricted queries: when owner, repo and branch contain no `':'`
and the branch filters are nonempty, two queries produce the same key
exactly when all four components agree. (An empty branch collides with
the literal branch `"all"`, and a `':'` inside a component can shift the
delimiters, so the restriction cannot be dropped.) -/
theorem c3_cache_key_injective (owner₁ repo₁ branch₁ filter₁ owner₂ repo₂ branch₂ filter₂ : String)
    (ho₁ : ':' ∉ owner₁.data) (hr₁ : ':' ∉ repo₁.data) (hb₁ : ':' ∉ branch₁.data)
    (ho₂ : ':' ∉ owner₂.data) (hr₂ : ':' ∉ repo₂.data) (hb₂ : ':' ∉ branch₂.data)
    (hne₁ : branch₁ ≠ "") (hne₂ : branch₂ ≠ "") :
    CACHE_KEYS.repoStats owner₁ repo₁ branch₁ filter₁ =
      CACHE_KEYS.repoStats owner₂ repo₂ branch₂ filter₂ ↔
    (owner₁ = owner₂ ∧ repo₁ = repo₂ ∧ branch₁ = branch₂ ∧ filter₁ = filter₂) := by
  constructor
  · intro h
    have hdata := congrArg String.data h
    rw [repoStats_data, repoStats_data] at hdata
    rw [if_neg hne₁, if_neg hne₂] at hdata
    have h0 := colonfree_append_cancel _ _ _ _ (by decide) (by decide) hdata
    have h1 := colonfree_append_cancel _ _ _ _ ho₁ ho₂ h0.2
    have h2 := colonfree_append_cancel _ _ _ _ hr₁ hr₂ h1.2
    have h3 := colonfree_append_cancel _ _ _ _ hb₁ hb₂ h2.2
    have hstr : ∀ a b : String, a.data = b.data → a = b := by
      intro a b hab
      cases a; cases b
      exact congrArg String.mk hab
    exact ⟨hstr _ _ h1.1, hstr _ _ h2.1, hstr _ _ h3.1, hstr _ _ h3.2⟩
  · rintro ⟨rfl, rfl, rfl, rfl⟩
    rfl

/-- C3 (witness): the amended injectivity statement evaluated on
concrete colon-free queries. -/
theorem c3_cache_key_injective_witness :
    CACHE_KEYS.repoStats "octocat" "hello" "main" "2w" =
      CACHE_KEYS.repoStats "octocat" "hello" "main" "2w" :=
  (c3_cache_key_injective "octocat" "hello" "main" "2w" "octocat" "hello" "main" "2w"
    (by decide) (by decide) (by decide)
    (by decide) (by decide) (by decide)
    (by decide) (by decide)).mpr ⟨rfl, rfl, rfl, rfl⟩

/-! ## Read-through cache (`RedisCacheService`) with in-process fallback

The claims under verification all place the service in the regime where
every distributed-store operation fails or the service is in
degraded/memory-fallback mode. In the source, `get` routes to
`memoryGet` both from the `useMemoryFallback` branch and from the
transport-error catch branch, and `set` likewise stores into
`memoryCache` from both branches, so in this regime every operation
reduces to the in-process fallback store. `JSON.stringify`/`JSON.parse`
round-trips are the identity on the JSON value domain, so entries store
the value itself rather than its serialization. -/

/-- A JSON-serializable value. `jnull` is JavaScript `null`. -/
inductive JVal
  | jnull
  | jbool (b : Bool)
  | jnum (n : Int)
  | jstr (s : String)
  | jarr (elems : List JVal)
  | jobj (fields : List (String × JVal))

/-- The `=== null` test applied to a parsed cache read. -/
def JVal.isNull : JVal → Bool
  | .jnull => true
  | _ => false

/-- One in-process cache entry: `{ value, expiry }` with the absolute
expiry instant `Date.now() + ttl * 1000` in epoch milliseconds. -/
structure MemEntry where
  value : JVal
  expiry : Nat

/-- The service state in the failing/degraded regime: the in-process
fallback `memoryCache` map (a JS `Map`, modeled in insertion order). -/
structure CacheState where
  memoryCache : List (String × MemEntry)

/-- JS `Map.get`. -/
def mapGet (m : List (String × MemEntry)) (k : String) : Option MemEntry :=
  match m with
  | [] => none
  | e :: rest => if e.1 = k then some e.2 else mapGet rest k

/-- JS `Map.set`: overwrite in place, or append when absent. -/
def mapSet (m : List (String × MemEntry)) (k : String) (v : MemEntry) :
    List (String × MemEntry) :=
  match m with
  | [] => [(k, v)]
  | e :: rest => if e.1 = k then (k, v) :: rest else e :: mapSet rest k v

/-- JS `Map.delete`. -/
def mapDelete (m : List (String × MemEntry)) (k : String) : List (String × MemEntry) :=
  match m with
  | [] => []
  | e :: rest => if e.1 = k then rest else e :: mapDelete rest k

/-- `RedisCacheService.memoryGet`: lazy expiry on read. Absence and a
stored `null` both read back as `null`. -/
def memoryGet (st : CacheState) (now : Nat) (key : String) : JVal × CacheState :=
  match mapGet st.memoryCache key with
  | none => (JVal.jnull, st)
  | some entry =>
      if entry.expiry < now then (JVal.jnull, ⟨mapDelete st.memoryCache key⟩)
      else (entry.value, st)

/-- `RedisCacheService.get` in the failing/degraded regime: both the
`useMemoryFallback` branch and the catch branch route to `memoryGet`,
so the transport failure never surfaces. -/
def cacheGet (st : CacheState) (now : Nat) (key : String) : JVal × CacheState :=
  memoryGet st now key

/-- `RedisCacheService.set` in the failing/degraded regime: both
branches store into `memoryCache` with expiry `Date.now() + ttl * 1000`. -/
def cacheSet (st : CacheState) (now : Nat) (key : String) (value : JVal) (ttl : Nat) :
    CacheState :=
  ⟨mapSet st.memoryCache key ⟨value, now + ttl * 1000⟩⟩

/-- Result of one `getOrFetch` call; `computed` instruments whether the
compute function was invoked. -/
structure FetchCall where
  value : JVal
  state : CacheState
  computed : Bool

/-- `RedisCacheService.getOrFetch` (read-through): return the cached
value unless it reads back as `null`; otherwise invoke the compute
function (modeled by its result `fetchFn`), store the result, return it. -/
def getOrFetch (st : CacheState) (now : Nat) (key : String) (fetchFn : JVal) (ttl : Nat) :
    FetchCall :=
  let r := cacheGet st now key
  if !r.1.isNull then ⟨r.1, r.2, false⟩
  else ⟨fetchFn, cacheSet r.2 now key fetchFn ttl, true⟩

theorem mapGet_mapSet_self (k : String) (v : MemEntry) :
    ∀ m : List (String × MemEntry), mapGet (mapSet m k v) k = some v := by
  intro m
  induction m with
  | nil => simp [mapGet, mapSet]
  | cons e rest ih =>
      by_cases h : e.1 = k
      · simp [mapGet, mapSet, h]
      · simp [mapGet, mapSet, h, ih]

/-- Reading back a key right after `set`: the stored value before the
expiry instant, `null` strictly after it. -/
theorem cacheGet_cacheSet_self (st : CacheState) (now₁ now₂ : Nat) (key : String)
    (v : JVal) (ttl : Nat) :
    (cacheGet (cacheSet st now₁ key v ttl) now₂ key).1 =
      if now₁ + ttl * 1000 < now₂ then JVal.jnull else v := by
  simp only [cacheGet, memoryGet, cacheSet, mapGet_mapSet_self]
  split <;> rfl

theorem JVal.isNull_eq_false (v : JVal) (h : v ≠ JVal.jnull) : v.isNull = false := by
  cases v <;> simp_all [JVal.isNull]

/-! ## Claims C4, C5 and C10 -/

/-- C4 (counterexample): the claim quantifies over every compute
function, but when the computed value is `null` the second `getOrFetch`
call within the TTL invokes the compute function again (a cached `null`
reads back indistinguishably from a miss): starting from an empty
store with the distributed store failing, computing `null` under
`ttl = 60` and calling again at `now = 1000` (well within the TTL)
still recomputes. -/
theorem c4_fallback_counterexample :
    (getOrFetch (getOrFetch ⟨[]⟩ 0 "k" JVal.jnull 60).state 1000 "k" JVal.jnull 60).computed
      = true := by
  rfl

/-- C4 (amended): with every distributed-store operation failing (or the
service degraded to the memory fallback), for every key, TTL and compute
function whose result is not `null`: `getOrFetch` on a fresh key returns
exactly the computed value — the store failure never surfaces, the call
is total — and a second `getOrFetch` for the same key within the TTL
returns the cached value without invoking the compute function again. -/
theorem c4_fallback_transparency (st : CacheState) (now₁ now₂ : Nat) (key : String)
    (data : JVal) (ttl : Nat)
    (hfresh : mapGet st.memoryCache key = none)
    (hdata : data ≠ JVal.jnull)
    (hwithin : now₂ ≤ now₁ + ttl * 1000) :
    (getOrFetch st now₁ key data ttl).value = data ∧
    (getOrFetch st now₁ key data ttl).computed = true ∧
    (getOrFetch (getOrFetch st now₁ key data ttl).state now₂ key data ttl).value = data ∧
    (getOrFetch (getOrFetch st now₁ key data ttl).state now₂ key data ttl).computed = false := by
  have h1 : getOrFetch st now₁ key data ttl =
      ⟨data, cacheSet st now₁ key data ttl, true⟩ := by
    simp [getOrFetch, cacheGet, memoryGet, hfresh, JVal.isNull]
  have h2 : cacheGet (cacheSet st now₁ key data ttl) now₂ key =
      (data, cacheSet st now₁ key data ttl) := by
    simp only [cacheGet, memoryGet, cacheSet, mapGet_mapSet_self]
    rw [if_neg (by omega)]
  rw [h1]
  refine ⟨rfl, rfl, ?_, ?_⟩ <;>
    simp [getOrFetch, h2, JVal.isNull_eq_false data hdata]

/-- C4 (witness): the amended statement evaluated on an empty store,
`key = "k"`, computed value `42`, `ttl = 60` seconds, second call one
second later. -/
theorem c4_fallback_transparency_witness :
    (getOrFetch ⟨[]⟩ 0 "k" (JVal.jnum 42) 60).value = JVal.jnum 42 ∧
    (getOrFetch ⟨[]⟩ 0 "k" (JVal.jnum 42) 60).computed = true ∧
    (getOrFetch (getOrFetch ⟨[]⟩ 0 "k" (JVal.jnum 42) 60).state 1000 "k"
      (JVal.jnum 42) 60).value = JVal.jnum 42 ∧
    (getOrFetch (getOrFetch ⟨[]⟩ 0 "k" (JVal.jnum 42) 60).state 1000 "k"
      (JVal.jnum 42) 60).computed = false :=
  c4_fallback_transparency ⟨[]⟩ 0 1000 "k" (JVal.jnum 42) 60 rfl
    (fun h => JVal.noConfusion h) (by omega)

/-- C5: on the in-process fallback store, `set(key, v, ttl)` followed
immediately by `get(key)` returns a value deep-equal to `v`, and once
more than `ttl` seconds have elapsed on the clock (`now' > now + ttl * 1000`
milliseconds), `get(key)` returns absent (`null`) — lazy expiry stored
as `now + ttl * 1000` at set time and checked against the clock on read. -/
theorem c5_cache_roundtrip (st : CacheState) (now now' : Nat) (key : String)
    (v : JVal) (ttl : Nat) (_httl : 0 < ttl) :
    (cacheGet (cacheSet st now key v ttl) now key).1 = v ∧
    (now + ttl * 1000 < now' →
      (cacheGet (cacheSet st now key v ttl) now' key).1 = JVal.jnull) := by
  constructor
  · rw [cacheGet_cacheSet_self, if_neg (by omega)]
  · intro h
    rw [cacheGet_cacheSet_self, if_pos h]

/-- C5 (witness): round trip of the string value `"x"` under a 60-second
TTL, reread at 61 seconds. -/
theorem c5_cache_roundtrip_witness :
    (cacheGet (cacheSet ⟨[]⟩ 0 "k" (JVal.jstr "x") 60) 0 "k").1 = JVal.jstr "x" ∧
    (0 + 60 * 1000 < 61000 →
      (cacheGet (cacheSet ⟨[]⟩ 0 "k" (JVal.jstr "x") 60) 61000 "k").1 = JVal.jnull) :=
  c5_cache_roundtrip ⟨[]⟩ 0 61000 "k" (JVal.jstr "x") 60 (by omega)

/-- C10: the cache cannot represent a stored `null`. (1) `get` returns
`null` when the key is absent; (2) `get` returns `null` when the cached
value itself is `null`, expired or not; (3) `getOrFetch` treats any
`null` cached read as a miss: it invokes the compute function and
returns its value; (4) consequently, when the compute function returns
`null`, a later `getOrFetch` call at any instant — even within the TTL —
invokes the compute function again: `null` results are never served
from cache. -/
theorem c10_null_not_cacheable :
    (∀ (st : CacheState) (now : Nat) (key : String),
        mapGet st.memoryCache key = none → (cacheGet st now key).1 = JVal.jnull)
    ∧ (∀ (st : CacheState) (now₁ now₂ : Nat) (key : String) (ttl : Nat),
        (cacheGet (cacheSet st now₁ key JVal.jnull ttl) now₂ key).1 = JVal.jnull)
    ∧ (∀ (st : CacheState) (now : Nat) (key : String) (fetchFn : JVal) (ttl : Nat),
        (cacheGet st now key).1 = JVal.jnull →
        (getOrFetch st now key fetchFn ttl).computed = true ∧
        (getOrFetch st now key fetchFn ttl).value = fetchFn)
    ∧ (∀ (st : CacheState) (now₁ now₂ : Nat) (key : String) (ttl : Nat),
        (cacheGet st now₁ key).1 = JVal.jnull →
        (getOrFetch (getOrFetch st now₁ key JVal.jnull ttl).state now₂ key
          JVal.jnull ttl).computed = true) := by
  refine ⟨?_, ?_, ?_, ?_⟩
  · intro st now key h
    simp [cacheGet, memoryGet, h]
  · intro st now₁ now₂ key ttl
    rw [cacheGet_cacheSet_self]
    split <;> rfl
  · intro st now key fetchFn ttl h
    constructor <;> simp [getOrFetch, h, JVal.isNull]
  · intro st now₁ now₂ key ttl h
    have hfirst : (getOrFetch st now₁ key JVal.jnull ttl).state =
        cacheSet (cacheGet st now₁ key).2 now₁ key JVal.jnull ttl := by
      simp [getOrFetch, h, JVal.isNull]
    have h2 : (cacheGet (cacheSet (cacheGet st now₁ key).2 now₁ key JVal.jnull ttl)
        now₂ key).1 = JVal.jnull := by
      rw [cacheGet_cacheSet_self]
      split <;> rfl
    rw [hfirst]
    simp [getOrFetch, h2, JVal.isNull]

/-- C10 (witness): a miss on the empty store computes, and the
recomputation conjunct evaluated with `null` as computed value. -/
theorem c10_null_not_cacheable_witness :
    ((getOrFetch ⟨[]⟩ 5 "k" (JVal.jbool true) 60).computed = true ∧
      (getOrFetch ⟨[]⟩ 5 "k" (JVal.jbool true) 60).value = JVal.jbool true) ∧
    (getOrFetch (getOrFetch ⟨[]⟩ 5 "k" JVal.jnull 60).state 6 "k"
      JVal.jnull 60).computed = true :=
  ⟨c10_null_not_cacheable.2.2.1 ⟨[]⟩ 5 "k" (JVal.jbool true) 60 rfl,
    c10_null_not_cacheable.2.2.2 ⟨[]⟩ 5 6 "k" 60 rfl⟩

/-! ## Maintainer lookup (`GitHubService.fetchMaintainers`) -/

/-- The `permissions` flags of a collaborator record; the whole object
may be absent (`c.permissions?.`). -/
structure CollabPermissions where
  push : Bool
  admin : Bool
deriving DecidableEq

/-- A collaborator as returned by the list-collaborators endpoint. -/
structure Collaborator where
  login : String
  permissions : Option CollabPermissions
deriving DecidableEq

/-- The filter `c.permissions?.push || c.permissions?.admin` (absent
permissions are falsy). -/
def hasPushOrAdmin (c : Collaborator) : Bool :=
  match c.permissions with
  | none => false
  | some p => p.push || p.admin

/-- The compute function inside `GitHubService.fetchMaintainers`: on any
API error the catch returns `[]`; on success, the logins of the
collaborators holding push or admin permission. `ε` is the (arbitrary)
error type of the collaborator-listing call. -/
def fetchMaintainersList {ε : Type} (resp : Except ε (List Collaborator)) : List String :=
  match resp with
  | .error _ => []
  | .ok collaborators => (collaborators.filter hasPushOrAdmin).map Collaborator.login

/-! ## Claim C9 -/

/-- C9: for every owner/repo (hence every upstream response), if the
collaborator-listing call fails with any error, `fetchMaintainers`
yields the empty maintainer set — the error is caught and never
propagated (`fetchMaintainersList` is total) — and on success it yields
exactly the set of collaborator logins holding push or admin
permission. -/
theorem c9_maintainers_best_effort {ε : Type} (resp : Except ε (List Collaborator)) :
    (∀ e, resp = Except.error e → fetchMaintainersList resp = [])
    ∧ (∀ collaborators, resp = Except.ok collaborators →
        ∀ s, s ∈ fetchMaintainersList resp ↔
          ∃ c ∈ collaborators, hasPushOrAdmin c = true ∧ c.login = s) := by
  constructor
  · rintro e rfl
    rfl
  · rintro collaborators rfl s
    simp only [fetchMaintainersList, List.mem_map, List.mem_filter]
    constructor
    · rintro ⟨c, ⟨hc, hperm⟩, rfl⟩
      exact ⟨c, hc, hperm, rfl⟩
    · rintro ⟨c, hc, hperm, rfl⟩
      exact ⟨c, ⟨hc, hperm⟩, rfl⟩

/-- C9 (witness): the theorem evaluated on a failing call and on a
successful call with one push collaborator and one read-only one. -/
theorem c9_maintainers_best_effort_witness :
    fetchMaintainersList (Except.error "boom" : Except String (List Collaborator)) = []
    ∧ ("alice" ∈ fetchMaintainersList (Except.ok
        [⟨"alice", some ⟨true, false⟩⟩, ⟨"carol", some ⟨false, false⟩⟩]
        : Except String (List Collaborator)) ↔
      ∃ c ∈ [(⟨"alice", some ⟨true, false⟩⟩ : Collaborator),
             ⟨"carol", some ⟨false, false⟩⟩],
        hasPushOrAdmin c = true ∧ c.login = "alice") :=
  ⟨(c9_maintainers_best_effort (Except.error "boom")).1 "boom" rfl,
    (c9_maintainers_best_effort (Except.ok
      [⟨"alice", some ⟨true, false⟩⟩, ⟨"carol", some ⟨false, false⟩⟩])).2
      [⟨"alice", some ⟨true, false⟩⟩, ⟨"carol", some ⟨false, false⟩⟩] rfl "alice"⟩

/-! ## Activity timeline (`GitHubService.calculateActivityTimeline`) -/

/-- `IActivityDataPoint`: one calendar day with opened/merged/closed
counts; the `date` string is modeled by its day index (the `YYYY-MM-DD`
rendering of a day index is injective). -/
structure IActivityDataPoint where
  date : Nat
  opened : Nat
  merged : Nat
  closed : Nat
deriving DecidableEq

/-- JS `Map.set` on the timeline map: overwrite in place, or append. -/
def tlSet (m : List (Nat × IActivityDataPoint)) (k : Nat) (v : IActivityDataPoint) :
    List (Nat × IActivityDataPoint) :=
  match m with
  | [] => [(k, v)]
  | e :: rest => if e.1 = k then (k, v) :: rest else e :: tlSet rest k v

/-- `timeline.get(d)!.f++` guarded by `timeline.has(d)`: transform the
entry at `k` in place if present, otherwise leave the map unchanged. -/
def tlBump (f : IActivityDataPoint → IActivityDataPoint)
    (m : List (Nat × IActivityDataPoint)) (k : Nat) : List (Nat × IActivityDataPoint) :=
  match m with
  | [] => []
  | e :: rest => if e.1 = k then (e.1, f e.2) :: rest else e :: tlBump f rest k

def bumpOpened (p : IActivityDataPoint) : IActivityDataPoint :=
  { p with opened := p.opened + 1 }

def bumpMerged (p : IActivityDataPoint) : IActivityDataPoint :=
  { p with merged := p.merged + 1 }

def bumpClosed (p : IActivityDataPoint) : IActivityDataPoint :=
  { p with closed := p.closed + 1 }

/-- The body of the `for (const pr of prs)` counting loop: bump `opened`
for the creation day; then `merged` for the merge day if `mergedAt` is
set, else `closed` for the close day if `closedAt` is set. -/
def timelineStep (m : List (Nat × IActivityDataPoint)) (pr : IPullRequest) :
    List (Nat × IActivityDataPoint) :=
  let m₁ := tlBump bumpOpened m (DateUtils.toDateString pr.createdAt)
  match pr.mergedAt with
  | some ma => tlBump bumpMerged m₁ (DateUtils.toDateString ma)
  | none =>
      match pr.closedAt with
      | some ca => tlBump bumpClosed m₁ (DateUtils.toDateString ca)
      | none => m₁

/-- The initialization loop: one all-zero bucket per date of the range. -/
def timelineInit (dates : List Nat) : List (Nat × IActivityDataPoint) :=
  dates.foldl (fun m date => tlSet m date ⟨date, 0, 0, 0⟩) []

/-- `GitHubService.calculateActivityTimeline`: initialize all dates of
`generateDateRange(timeFilter)`, count PRs per day, and return
`Array.from(timeline.values())`. -/
def calculateActivityTimeline (prs : List IPullRequest) (timeFilter : TimeFilter)
    (now : Nat) : List IActivityDataPoint :=
  let dateRange := DateUtils.generateDateRange timeFilter now
  (prs.foldl timelineStep (timelineInit dateRange)).map Prod.snd

theorem tlSet_of_not_mem (k : Nat) (v : IActivityDataPoint) :
    ∀ m : List (Nat × IActivityDataPoint),
      k ∉ m.map Prod.fst → tlSet m k v = m ++ [(k, v)] := by
  intro m
  induction m with
  | nil => intro _; rfl
  | cons e rest ih =>
      intro h
      simp only [List.map_cons, List.mem_cons] at h
      push_neg at h
      have hne : e.1 ≠ k := fun he => h.1 he.symm
      simp only [tlSet, if_neg hne, ih h.2]
      rfl

/-- The initialization fold writes exactly one bucket per date, in
order, provided the date list has no duplicates. -/
theorem timelineInit_eq :
    ∀ (dates : List Nat) (m₀ : List (Nat × IActivityDataPoint)),
      dates.Nodup → (∀ d ∈ dates, d ∉ m₀.map Prod.fst) →
      dates.foldl (fun m date => tlSet m date ⟨date, 0, 0, 0⟩) m₀ =
        m₀ ++ dates.map (fun d => (d, ⟨d, 0, 0, 0⟩)) := by
  intro dates
  induction dates with
  | nil => intro m₀ _ _; simp
  | cons d ds ih =>
      intro m₀ hnd hdisj
      simp only [List.foldl_cons]
      have hdisj' : ∀ d' ∈ ds,
          d' ∉ (m₀ ++ [(d, (⟨d, 0, 0, 0⟩ : IActivityDataPoint))]).map Prod.fst := by
        intro d' hd'
        simp only [List.map_append, List.mem_append, List.map_cons, List.map_nil,
          List.mem_singleton]
        push_neg
        refine ⟨hdisj d' (List.mem_cons_of_mem _ hd'), ?_⟩
        intro he
        exact (List.nodup_cons.mp hnd).1 (he ▸ hd')
      have hih := ih (m₀ ++ [(d, (⟨d, 0, 0, 0⟩ : IActivityDataPoint))])
        (List.Nodup.of_cons hnd) hdisj'
      rw [tlSet_of_not_mem d ⟨d, 0, 0, 0⟩ m₀ (hdisj d (List.mem_cons_self ..)), hih]
      simp

/-- `tlBump` never adds or removes keys. -/
theorem tlBump_map_fst (f : IActivityDataPoint → IActivityDataPoint) (k : Nat) :
    ∀ m : List (Nat × IActivityDataPoint),
      (tlBump f m k).map Prod.fst = m.map Prod.fst := by
  intro m
  induction m with
  | nil => rfl
  | cons e rest ih =>
      by_cases h : e.1 = k
      · simp [tlBump, h]
      · simp [tlBump, h, ih]

/-- `tlBump` with a date-preserving transform keeps the invariant that
every bucket's `date` field equals its key. -/
theorem tlBump_dateInv (f : IActivityDataPoint → IActivityDataPoint)
    (hf : ∀ p, (f p).date = p.date) (k : Nat) :
    ∀ m : List (Nat × IActivityDataPoint),
      (∀ e ∈ m, e.2.date = e.1) → ∀ e ∈ tlBump f m k, e.2.date = e.1 := by
  intro m
  induction m with
  | nil => intro _ e he; simp [tlBump] at he
  | cons hd rest ih =>
      intro hm e he
      by_cases h : hd.1 = k
      · simp only [tlBump, if_pos h] at he
        rcases List.mem_cons.mp he with h1 | h1
        · rw [h1]
          simpa [hf] using hm hd (List.mem_cons_self ..)
        · exact hm e (List.mem_cons_of_mem _ h1)
      · simp only [tlBump, if_neg h] at he
        rcases List.mem_cons.mp he with h1 | h1
        · exact h1 ▸ hm hd (List.mem_cons_self ..)
        · exact ih (fun e' he' => hm e' (List.mem_cons_of_mem _ he')) e h1

theorem timelineStep_map_fst (m : List (Nat × IActivityDataPoint)) (pr : IPullRequest) :
    (timelineStep m pr).map Prod.fst = m.map Prod.fst := by
  unfold timelineStep
  cases pr.mergedAt with
  | some ma => simp [tlBump_map_fst]
  | none =>
      cases pr.closedAt with
      | some ca => simp [tlBump_map_fst]
      | none => simp [tlBump_map_fst]

theorem timelineStep_dateInv (m : List (Nat × IActivityDataPoint)) (pr : IPullRequest)
    (hm : ∀ e ∈ m, e.2.date = e.1) : ∀ e ∈ timelineStep m pr, e.2.date = e.1 := by
  unfold timelineStep
  have h₁ := tlBump_dateInv bumpOpened (fun p => rfl) (DateUtils.toDateString pr.createdAt) m hm
  cases pr.mergedAt with
  | some ma => exact tlBump_dateInv bumpMerged (fun p => rfl) _ _ h₁
  | none =>
      cases pr.closedAt with
      | some ca => exact tlBump_dateInv bumpClosed (fun p => rfl) _ _ h₁
      | none => exact h₁

theorem timelineFold_map_fst (prs : List IPullRequest) :
    ∀ m : List (Nat × IActivityDataPoint),
      (prs.foldl timelineStep m).map Prod.fst = m.map Prod.fst := by
  induction prs with
  | nil => intro m; rfl
  | cons pr rest ih =>
      intro m
      simp only [List.foldl_cons]
      rw [ih, timelineStep_map_fst]

theorem timelineFold_dateInv (prs : List IPullRequest) :
    ∀ m : List (Nat × IActivityDataPoint),
      (∀ e ∈ m, e.2.date = e.1) → ∀ e ∈ prs.foldl timelineStep m, e.2.date = e.1 := by
  induction prs with
  | nil => intro m hm; exact hm
  | cons pr rest ih =>
      intro m hm
      exact ih _ (timelineStep_dateInv m pr hm)

theorem getStartDate_le (f : TimeFilter) (now : Nat) :
    DateUtils.getStartDate f now ≤ now := by
  cases f <;> simp [DateUtils.getStartDate]

/-- Closed form of the generated date range: the consecutive day indices
from the start day to today. -/
theorem generateDateRange_closed (f : TimeFilter) (now : Nat) :
    DateUtils.generateDateRange f now =
      (List.range (DateUtils.daysBetween (DateUtils.getStartDate f now) now + 1)).map
        (fun i => DateUtils.toDateString (DateUtils.getStartDate f now) + i) := by
  unfold DateUtils.generateDateRange DateUtils.daysBetween DateUtils.toDateString
  exact DateUtils.dateRangeLoop_eq now _ (getStartDate_le f now)

theorem generateDateRange_nodup (f : TimeFilter) (now : Nat) :
    (DateUtils.generateDateRange f now).Nodup := by
  rw [generateDateRange_closed]
  exact (List.nodup_range _).map (fun a b hab => by omega)

theorem mem_generateDateRange (f : TimeFilter) (now d : Nat)
    (hd : d ∈ DateUtils.generateDateRange f now) :
    DateUtils.toDateString (DateUtils.getStartDate f now) ≤ d ∧
      d ≤ DateUtils.toDateString now := by
  rw [generateDateRange_closed] at hd
  rcases List.mem_map.mp hd with ⟨i, hi, rfl⟩
  have hik : i ≤ DateUtils.daysBetween (DateUtils.getStartDate f now) now := by
    have := List.mem_range.mp hi
    omega
  refine ⟨Nat.le_add_right _ _, ?_⟩
  unfold DateUtils.toDateString DateUtils.daysBetween at *
  calc DateUtils.getStartDate f now / DateUtils.msPerDay + i
      ≤ DateUtils.getStartDate f now / DateUtils.msPerDay +
          (now - DateUtils.getStartDate f now) / DateUtils.msPerDay := by omega
    _ ≤ (DateUtils.getStartDate f now + (now - DateUtils.getStartDate f now)) /
          DateUtils.msPerDay := Nat.add_div_le_add_div ..
    _ = now / DateUtils.msPerDay := by rw [Nat.add_sub_cancel' (getStartDate_le f now)]

/-- The dates of the computed timeline are exactly the generated range,
whatever the PR list: incrementing never adds or removes buckets. -/
theorem calculateActivityTimeline_dates (prs : List IPullRequest) (f : TimeFilter)
    (now : Nat) :
    (calculateActivityTimeline prs f now).map IActivityDataPoint.date =
      DateUtils.generateDateRange f now := by
  have hnd := generateDateRange_nodup f now
  have hinit : timelineInit (DateUtils.generateDateRange f now) =
      (DateUtils.generateDateRange f now).map
        (fun d => (d, (⟨d, 0, 0, 0⟩ : IActivityDataPoint))) := by
    have h0 := timelineInit_eq (DateUtils.generateDateRange f now) [] hnd (by simp)
    rw [List.nil_append] at h0
    exact h0
  have hfst : (prs.foldl timelineStep
      (timelineInit (DateUtils.generateDateRange f now))).map Prod.fst =
      DateUtils.generateDateRange f now := by
    rw [timelineFold_map_fst, hinit, List.map_map]
    have hcomp : (Prod.fst ∘ fun d : Nat => (d, (⟨d, 0, 0, 0⟩ : IActivityDataPoint)))
        = id := rfl
    rw [hcomp, List.map_id]
  have hinv : ∀ e ∈ prs.foldl timelineStep
      (timelineInit (DateUtils.generateDateRange f now)), e.2.date = e.1 := by
    apply timelineFold_dateInv
    rw [hinit]
    intro e he
    rcases List.mem_map.mp he with ⟨d, _, rfl⟩
    rfl
  unfold calculateActivityTimeline
  rw [List.map_map]
  calc (prs.foldl timelineStep (timelineInit (DateUtils.generateDateRange f now))).map
        (IActivityDataPoint.date ∘ Prod.snd)
      = (prs.foldl timelineStep
          (timelineInit (DateUtils.generateDateRange f now))).map Prod.fst :=
        List.map_congr_left (fun e he => hinv e he)
    _ = DateUtils.generateDateRange f now := hfst

/-! ## Claim C6 -/

/-- C6: for every time filter and PR list, the activity timeline has
exactly `daysBetween(startDate(filter), today) + 1` entries — one per
calendar day of the inclusive range `[startDate(filter), today]` — with
every date unique and in range, and a bucket is present for each day of
the range even when its counts are all zero (the date list is exactly
the dense generated range). The clock hypothesis keeps the millisecond
model in the regime where the JavaScript offsets do not underflow the
epoch. -/
theorem c6_timeline_dense (prs : List IPullRequest) (timeFilter : TimeFilter) (now : Nat)
    (_hnow : 180 * DateUtils.msPerDay ≤ now) :
    (calculateActivityTimeline prs timeFilter now).map IActivityDataPoint.date =
        DateUtils.generateDateRange timeFilter now
    ∧ (calculateActivityTimeline prs timeFilter now).length =
        DateUtils.daysBetween (DateUtils.getStartDate timeFilter now) now + 1
    ∧ ((calculateActivityTimeline prs timeFilter now).map IActivityDataPoint.date).Nodup
    ∧ ∀ p ∈ calculateActivityTimeline prs timeFilter now,
        DateUtils.toDateString (DateUtils.getStartDate timeFilter now) ≤ p.date ∧
        p.date ≤ DateUtils.toDateString now := by
  have hdates := calculateActivityTimeline_dates prs timeFilter now
  refine ⟨hdates, ?_, ?_, ?_⟩
  · have := congrArg List.length hdates
    rw [List.length_map] at this
    rw [this, generateDateRange_closed, List.length_map, List.length_range]
  · rw [hdates]
    exact generateDateRange_nodup timeFilter now
  · intro p hp
    have : p.date ∈ (calculateActivityTimeline prs timeFilter now).map
        IActivityDataPoint.date := List.mem_map_of_mem _ hp
    rw [hdates] at this
    exact mem_generateDateRange timeFilter now p.date this

/-- C6 (witness): the density facts at day 200 since the epoch with the
two-week filter and one sample PR. -/
theorem c6_timeline_dense_witness :
    (calculateActivityTimeline [samplePROpen] TimeFilter.tw
        (200 * DateUtils.msPerDay)).length =
      DateUtils.daysBetween
        (DateUtils.getStartDate TimeFilter.tw (200 * DateUtils.msPerDay))
        (200 * DateUtils.msPerDay) + 1 :=
  (c6_timeline_dense [samplePROpen] TimeFilter.tw (200 * DateUtils.msPerDay)
    (by simp only [DateUtils.msPerDay]; omega)).2.1

/-! ## Label distribution and the aggregation triple -/

/-- `distribution[label] = (distribution[label] || 0) + 1`: bump the
label's count in place, or append it with count 1 (JS object keys keep
insertion order). -/
def labelBump (m : List (String × Nat)) (label : String) : List (String × Nat) :=
  match m with
  | [] => [(label, 1)]
  | e :: rest => if e.1 = label then (e.1, e.2 + 1) :: rest else e :: labelBump rest label

/-- `GitHubService.calculateLabelDistribution`: flatten all labels of
all PRs into a frequency map, byte-for-byte label comparison. -/
def calculateLabelDistribution (prs : List IPullRequest) : List (String × Nat) :=
  prs.foldl (fun m pr => pr.labels.foldl labelBump m) []

/-- The statistics aggregation performed by `fetchRepositoryStats`:
contributor rollup, label distribution and activity timeline, as a
function of the PR list, the maintainer set, the time filter — and the
clock `now`, which enters through `new Date()` inside
`DateUtils.generateDateRange` (and `getStartDate`). -/
def aggregateStats (prs : List IPullRequest) (maintainers : List String)
    (timeFilter : TimeFilter) (now : Nat) :
    List IContributorStats × List (String × Nat) × List IActivityDataPoint :=
  (calculateContributorStats prs maintainers,
    calculateLabelDistribution prs,
    calculateActivityTimeline prs timeFilter now)

theorem calculateActivityTimeline_length (prs : List IPullRequest) (f : TimeFilter)
    (now : Nat) :
    (calculateActivityTimeline prs f now).length =
      DateUtils.daysBetween (DateUtils.getStartDate f now) now + 1 := by
  have h := congrArg List.length (calculateActivityTimeline_dates prs f now)
  rw [List.length_map] at h
  rw [h, generateDateRange_closed, List.length_map, List.length_range]

/-- The start-day arithmetic for the fixed-offset filters: subtracting
`c` whole days shifts the day index by exactly `c`. -/
theorem dateRangeLoop_sub_offset (now c : Nat) (hc : c * DateUtils.msPerDay ≤ now) :
    DateUtils.dateRangeLoop now (now - c * DateUtils.msPerDay) =
      (List.range (c + 1)).map (fun i => now / DateUtils.msPerDay - c + i) := by
  have hD : 0 < DateUtils.msPerDay := by simp only [DateUtils.msPerDay]; omega
  rw [DateUtils.dateRangeLoop_eq now _ (Nat.sub_le ..)]
  have h1 : now - (now - c * DateUtils.msPerDay) = c * DateUtils.msPerDay := by omega
  have h2 : c * DateUtils.msPerDay / DateUtils.msPerDay = c := Nat.mul_div_cancel c hD
  have h3 : (now - c * DateUtils.msPerDay) / DateUtils.msPerDay =
      now / DateUtils.msPerDay - c := by
    have h4 := Nat.add_mul_div_right (now - c * DateUtils.msPerDay) c hD
    rw [Nat.sub_add_cancel hc] at h4
    exact Nat.eq_sub_of_add_eq h4.symm
  rw [h1, h2, h3]

/-- The generated date range depends on the clock only through the
current calendar day. -/
theorem generateDateRange_day_congr (f : TimeFilter) (now₁ now₂ : Nat)
    (h₁ : 180 * DateUtils.msPerDay ≤ now₁) (h₂ : 180 * DateUtils.msPerDay ≤ now₂)
    (hday : now₁ / DateUtils.msPerDay = now₂ / DateUtils.msPerDay) :
    DateUtils.generateDateRange f now₁ = DateUtils.generateDateRange f now₂ := by
  cases f with
  | all =>
      simp only [DateUtils.generateDateRange, DateUtils.getStartDate]
      rw [DateUtils.dateRangeLoop_eq now₁ 0 (Nat.zero_le _),
        DateUtils.dateRangeLoop_eq now₂ 0 (Nat.zero_le _)]
      simp only [Nat.sub_zero, DateUtils.toDateString, hday]
  | tw =>
      simp only [DateUtils.generateDateRange, DateUtils.getStartDate]
      rw [dateRangeLoop_sub_offset now₁ 14 (by simp only [DateUtils.msPerDay] at *; omega),
        dateRangeLoop_sub_offset now₂ 14 (by simp only [DateUtils.msPerDay] at *; omega),
        hday]
  | om =>
      simp only [DateUtils.generateDateRange, DateUtils.getStartDate]
      rw [dateRangeLoop_sub_offset now₁ 30 (by simp only [DateUtils.msPerDay] at *; omega),
        dateRangeLoop_sub_offset now₂ 30 (by simp only [DateUtils.msPerDay] at *; omega),
        hday]
  | tm =>
      simp only [DateUtils.generateDateRange, DateUtils.getStartDate]
      rw [dateRangeLoop_sub_offset now₁ 90 (by simp only [DateUtils.msPerDay] at *; omega),
        dateRangeLoop_sub_offset now₂ 90 (by simp only [DateUtils.msPerDay] at *; omega),
        hday]
  | sm =>
      simp only [DateUtils.generateDateRange, DateUtils.getStartDate]
      rw [dateRangeLoop_sub_offset now₁ 180 (by simp only [DateUtils.msPerDay] at *; omega),
        dateRangeLoop_sub_offset now₂ 180 (by simp only [DateUtils.msPerDay] at *; omega),
        hday]

/-! ## Claim C7 -/

/-- C7 (counterexample): the aggregation is not a pure function of
(PR list, maintainer set, time filter): it reads the current clock.
Aggregating the same inputs (empty PR list, empty maintainer set,
filter `"all"`) at day 200 and at day 201 after the epoch yields
different outputs — the activity timelines have 201 and 202 entries
respectively. -/
theorem c7_clock_dependence_counterexample :
    aggregateStats [] [] TimeFilter.all (200 * DateUtils.msPerDay) ≠
      aggregateStats [] [] TimeFilter.all (201 * DateUtils.msPerDay) := by
  intro h
  have hD : 0 < DateUtils.msPerDay := by simp only [DateUtils.msPerDay]; omega
  have h3 := congrArg (fun t =>
    (t : List IContributorStats × List (String × Nat) × List IActivityDataPoint).2.2.length) h
  simp only [aggregateStats] at h3
  rw [calculateActivityTimeline_length, calculateActivityTimeline_length] at h3
  simp only [DateUtils.getStartDate, DateUtils.daysBetween, Nat.sub_zero] at h3
  rw [Nat.mul_div_cancel 200 hD, Nat.mul_div_cancel 201 hD] at h3
  omega

/-- C7 (amended): the aggregation is deterministic in (PR list,
maintainer set, time filter, current calendar day): the contributor
rollup and label distribution are clock-independent, and the activity
timeline depends on the clock only through the current day, so two
aggregations of the same inputs performed on the same calendar day
yield identical output. It is not clock-independent outright: the
timeline's date range ends at "today". -/
theorem c7_aggregation_pure_per_day (prs : List IPullRequest) (maintainers : List String)
    (timeFilter : TimeFilter) (now₁ now₂ : Nat)
    (h₁ : 180 * DateUtils.msPerDay ≤ now₁) (h₂ : 180 * DateUtils.msPerDay ≤ now₂)
    (hday : DateUtils.toDateString now₁ = DateUtils.toDateString now₂) :
    aggregateStats prs maintainers timeFilter now₁ =
      aggregateStats prs maintainers timeFilter now₂ := by
  have hrange := generateDateRange_day_congr timeFilter now₁ now₂ h₁ h₂ hday
  have htl : calculateActivityTimeline prs timeFilter now₁ =
      calculateActivityTimeline prs timeFilter now₂ := by
    unfold calculateActivityTimeline
    rw [hrange]
  unfold aggregateStats
  rw [htl]

/-- C7 (witness): two aggregations five milliseconds apart within day
200 agree. -/
theorem c7_aggregation_pure_per_day_witness :
    aggregateStats [samplePROpen] ["alice"] TimeFilter.tw
        (200 * DateUtils.msPerDay + 2) =
      aggregateStats [samplePROpen] ["alice"] TimeFilter.tw
        (200 * DateUtils.msPerDay + 7) :=
  c7_aggregation_pure_per_day [samplePROpen] ["alice"] TimeFilter.tw
    (200 * DateUtils.msPerDay + 2) (200 * DateUtils.msPerDay + 7)
    (by simp only [DateUtils.msPerDay]; omega)
    (by simp only [DateUtils.msPerDay]; omega)
    (by decide)
